import Mathlib

/-!
Verification of the geohash-16 library (`src/core.rs`).

Modelling conventions:
* Rust `f64` is modelled twice.  The main development models it by `ℚ`:
  every arithmetic operation the library performs (addition, subtraction,
  halving, comparison, absolute value, multiplication by a sign) is exact
  in binary64 as long as each value fits in 53 significand bits, which
  holds for every bound, centre and half-width arising from hash strings
  of length at most 23 (a bound after m axis bisections is 45·t/2^(m-3)
  with |t| ≤ 2^(m-1), and decoding L characters reaches m = 2L+1 ≤ 47, so
  the significand 45·|t| stays below 2^53); within that depth the rational
  model computes the very same values as the `f64` code.  Beyond it the
  program rounds, so a second model (`F64` below) implements the same
  source lines over explicit IEEE-754 binary64 arithmetic and settles the
  depth-unbounded claims against the program's real behaviour.
* Rust `String` / `&str` is modelled by `List Char`.  All characters the
  library can emit are one-byte ASCII, so Rust byte length equals character
  count on every string that reaches `encode` through `neighbor`.
* `Result<T, Error>` is modelled by `Except GeohashError T`; the `failure`
  crate wrapper adds no information.
* The `i8` counter `bits_total` of `encode` is modelled by an exact `Nat`
  counting the increments; the counter is used only through its parity, and
  the `i8` width is examined separately (overflow happens exactly when the
  exact counter exceeds 127).
-/

set_option maxRecDepth 10000

deriving instance DecidableEq for Except

namespace Geohash

/-- `geo_types::Coordinate<f64>`: x = longitude, y = latitude. -/
structure Coordinate where
  x : ℚ
  y : ℚ
  deriving DecidableEq, Repr

/-- `geo_types::Rect<f64>`: the bounding box of a cell. -/
structure Rect where
  min : Coordinate
  max : Coordinate
  deriving DecidableEq, Repr

/-- The two error variants of `GeohashError`. -/
inductive GeohashError where
  | InvalidCoordinateRange (c : Coordinate)
  | InvalidHashCharacter (character : Char)
  deriving DecidableEq, Repr

/-- `static BASE32_CODES: &[char]` from `core.rs` (sixteen symbols). -/
def BASE32_CODES : List Char :=
  ['0', '1', '2', ('3' : Char), '4', '5', '6', '7',
   '8', '9', 'a', ('b' : Char), 'c', 'd', 'e', 'f']

/-- The mutable local state of the `encode` loop.  `bits_total` is the exact
increment count (in the source it is declared `i8`; only its parity is read,
see the C9 theorems for the width analysis). -/
structure EncodeState where
  bits_total : Nat
  hash_value : Nat
  max_lat : ℚ
  min_lat : ℚ
  max_lon : ℚ
  min_lon : ℚ
  deriving DecidableEq, Repr

/-- Initial bounds of `encode` (`core.rs` lines 37-41). -/
def encInit : EncodeState :=
  { bits_total := 0, hash_value := 0
    max_lat := 90, min_lat := -90, max_lon := 180, min_lon := -180 }

/-- One bisection step of the `encode` inner loop (`core.rs` lines 48-68):
the parity of `bits_total` selects the axis, the coordinate is compared with
the midpoint, one bit is appended to `hash_value`, and `bits_total` is
incremented. -/
def encodeBit (c : Coordinate) (s : EncodeState) : EncodeState :=
  if s.bits_total % 2 == 0 then
    let mid := (s.max_lon + s.min_lon) / 2
    if c.x > mid then
      { s with hash_value := s.hash_value * 2 + 1, min_lon := mid,
               bits_total := s.bits_total + 1 }
    else
      { s with hash_value := s.hash_value * 2, max_lon := mid,
               bits_total := s.bits_total + 1 }
  else
    let mid := (s.max_lat + s.min_lat) / 2
    if c.y > mid then
      { s with hash_value := s.hash_value * 2 + 1, min_lat := mid,
               bits_total := s.bits_total + 1 }
    else
      { s with hash_value := s.hash_value * 2, max_lat := mid,
               bits_total := s.bits_total + 1 }

/-- The `for _ in 0..4` block of `encode`: four bisection bits. -/
def encodeChar (c : Coordinate) (s : EncodeState) : EncodeState :=
  encodeBit c (encodeBit c (encodeBit c (encodeBit c s)))

/-- The `while out.len() < len` loop of `encode`, structured by the number of
characters still to produce.  Each round takes four bits, looks the
accumulated `hash_value` up in `BASE32_CODES` (always in bounds: the value of
four bits is below 16, see `encodeChar_hash_lt`), pushes the character and
resets the accumulator.  Returns the produced characters together with the
final loop state. -/
def encodeLoop (c : Coordinate) : Nat → EncodeState → List Char × EncodeState
  | 0, s => ([], s)
  | n + 1, s =>
    let s4 := encodeChar c s
    let code := BASE32_CODES.getD s4.hash_value 'x'
    let rest := encodeLoop c n { s4 with hash_value := 0 }
    (code :: rest.1, rest.2)

/-- `encode` (`core.rs` lines 33-76): range-check the coordinate against the
initial bounds, then run the bisection loop. -/
def encode (c : Coordinate) (len : Nat) : Except GeohashError (List Char) :=
  if c.x < -180 ∨ c.x > 180 ∨ c.y < -90 ∨ c.y > 90 then
    .error (.InvalidCoordinateRange c)
  else
    .ok (encodeLoop c len encInit).1

/-- The mutable local state of the `decode_bbox` loop. -/
structure DecodeState where
  is_lon : Bool
  max_lat : ℚ
  min_lat : ℚ
  max_lon : ℚ
  min_lon : ℚ
  deriving DecidableEq, Repr

/-- Initial state of `decode_bbox` (`core.rs` lines 90-94). -/
def decInit : DecodeState :=
  { is_lon := true, max_lat := 90, min_lat := -90, max_lon := 180, min_lon := -180 }

/-- `hash_value_of_char` (`core.rs` lines 136-144). -/
def hash_value_of_char (c : Char) : Except GeohashError Nat :=
  let ord := c.toNat
  if 48 ≤ ord ∧ ord ≤ 57 then .ok (ord - 48)
  else if 97 ≤ ord ∧ ord ≤ 102 then .ok (ord - 87)
  else .error (.InvalidHashCharacter c)

/-- One bit of the `decode_bbox` inner loop (`core.rs` lines 100-120):
`is_lon` selects the axis, bit 1 raises the lower bound to the midpoint,
bit 0 lowers the upper bound, and the axis flag flips. -/
def decodeBit (bit : Nat) (s : DecodeState) : DecodeState :=
  if s.is_lon then
    let mid := (s.max_lon + s.min_lon) / 2
    if bit == 1 then { s with min_lon := mid, is_lon := false }
    else { s with max_lon := mid, is_lon := false }
  else
    let mid := (s.max_lat + s.min_lat) / 2
    if bit == 1 then { s with min_lat := mid, is_lon := true }
    else { s with max_lat := mid, is_lon := true }

/-- The `for bs in 0..4` block of `decode_bbox`: the four bits of one
character value, most significant first (`(hash_value >> (3 - bs)) & 1`). -/
def decodeCharBits (hv : Nat) (s : DecodeState) : DecodeState :=
  decodeBit (hv % 2)
    (decodeBit (hv / 2 % 2) (decodeBit (hv / 4 % 2) (decodeBit (hv / 8 % 2) s)))

/-- The character loop of `decode_bbox`; stops at the first character that
`hash_value_of_char` rejects. -/
def decodeLoop : List Char → DecodeState → Except GeohashError DecodeState
  | [], s => .ok s
  | ch :: cs, s =>
    match hash_value_of_char ch with
    | .error e => .error e
    | .ok hv => decodeLoop cs (decodeCharBits hv s)

/-- `decode_bbox` (`core.rs` lines 89-134). -/
def decode_bbox (hash_str : List Char) : Except GeohashError Rect :=
  match decodeLoop hash_str decInit with
  | .error e => .error e
  | .ok s =>
    .ok { min := { x := s.min_lon, y := s.min_lat }
          max := { x := s.max_lon, y := s.max_lat } }

/-- `decode` (`core.rs` lines 190-202): the centre of the bounding box plus
the half-widths. -/
def decode (hash_str : List Char) :
    Except GeohashError (Coordinate × ℚ × ℚ) :=
  match decode_bbox hash_str with
  | .error e => .error e
  | .ok rect =>
    .ok ({ x := (rect.min.x + rect.max.x) / 2, y := (rect.min.y + rect.max.y) / 2 },
         (rect.max.x - rect.min.x) / 2,
         (rect.max.y - rect.min.y) / 2)

/-- The eight compass directions (`src/neighbors.rs`, re-exported type). -/
inductive Direction where
  | N | NE | E | SE | S | SW | W | NW
  deriving DecidableEq, Repr

/-- Modelled from the spec: `Direction::to_tuple` lives in `src/neighbors.rs`,
which is absent from the sources; spec section 4.4 fixes the mapping of each
direction to its `(Δlat, Δlng)` unit-sign tuple: N=(1,0), NE=(1,1), E=(0,1),
SE=(−1,1), S=(−1,0), SW=(−1,−1), W=(0,−1), NW=(1,−1). -/
def Direction.to_tuple : Direction → ℚ × ℚ
  | .N => (1, 0)
  | .NE => (1, 1)
  | .E => (0, 1)
  | .SE => (-1, 1)
  | .S => (-1, 0)
  | .SW => (-1, -1)
  | .W => (0, -1)
  | .NW => (1, -1)

/-- `neighbor` (`core.rs` lines 205-214): decode, shift the centre by one
cell width in the requested direction, re-encode at the input length. -/
def neighbor (hash_str : List Char) (direction : Direction) :
    Except GeohashError (List Char) :=
  match decode hash_str with
  | .error e => .error e
  | .ok (coord, lon_err, lat_err) =>
    let dlat := direction.to_tuple.1
    let dlng := direction.to_tuple.2
    encode { x := coord.x + 2 * |lon_err| * dlng,
             y := coord.y + 2 * |lat_err| * dlat } hash_str.length

/-- The `Neighbors` record of the eight adjacent cells. -/
structure Neighbors where
  n : List Char
  ne : List Char
  e : List Char
  se : List Char
  s : List Char
  sw : List Char
  w : List Char
  nw : List Char
  deriving DecidableEq, Repr

/-- `neighbors` (`core.rs` lines 239-250); the `?` operator makes the first
failing direction (in source order sw, s, se, w, e, nw, n, ne) abort the
whole call. -/
def neighbors (hash_str : List Char) : Except GeohashError Neighbors :=
  match neighbor hash_str .SW with
  | .error e => .error e
  | .ok vsw =>
    match neighbor hash_str .S with
    | .error e => .error e
    | .ok vs =>
      match neighbor hash_str .SE with
      | .error e => .error e
      | .ok vse =>
        match neighbor hash_str .W with
        | .error e => .error e
        | .ok vw =>
          match neighbor hash_str .E with
          | .error e => .error e
          | .ok ve =>
            match neighbor hash_str .NW with
            | .error e => .error e
            | .ok vnw =>
              match neighbor hash_str .N with
              | .error e => .error e
              | .ok vn =>
                match neighbor hash_str .NE with
                | .error e => .error e
                | .ok vne =>
                  .ok { sw := vsw, s := vs, se := vse, w := vw,
                        e := ve, nw := vnw, n := vn, ne := vne }

/-! ### IEEE-754 binary64 model

The rational definitions above coincide with the program only while every
value arising is exactly representable in binary64, i.e. for hash depths up
to 23 characters.  The definitions below translate the very same source
lines once more, this time over explicit binary64 arithmetic
(round-to-nearest, ties to even), to settle the depth-unbounded claims at
the depths where the program's rounding departs from the exact model.
Every value arising here is a normal double (magnitudes lie within
[2^-120, 2^9]), so overflow and subnormal rounding never occur, and
addition, halving and comparison below are the full IEEE semantics of the
source's `+`, `/ 2f64` and `>` on such values. -/

/-- Bit length of a natural number, by fuel-structured recursion; every
integer arising in this file is far below 2^200, where the fuel of 200 is
exact. -/
def bitLen : Nat → Nat → Nat
  | 0, _ => 0
  | _ + 1, 0 => 0
  | fuel + 1, n + 1 => bitLen fuel ((n + 1) / 2) + 1

/-- A finite binary64 value, written m·2^e. -/
structure F64 where
  m : ℤ
  e : ℤ
  deriving DecidableEq, Repr

/-- Round the exact dyadic m·2^e to the nearest binary64 value
(round-to-nearest, ties to even); the normal range assumed here covers
every value in this development. -/
def roundF64 (m : ℤ) (e : ℤ) : F64 :=
  if m = 0 then ⟨0, 0⟩
  else
    let n := m.natAbs
    let b := bitLen 200 n
    if b ≤ 53 then ⟨m, e⟩
    else
      let sh := b - 53
      let t := n / 2 ^ sh
      let r := n % 2 ^ sh
      let half := 2 ^ (sh - 1)
      let t2 := if half < r ∨ (r = half ∧ t % 2 = 1) then t + 1 else t
      if 0 < m then ⟨(t2 : ℤ), e + sh⟩ else ⟨-(t2 : ℤ), e + sh⟩

/-- Binary64 addition: the exact sum, rounded. -/
def fadd (a b : F64) : F64 :=
  let e0 := min a.e b.e
  roundF64 (a.m * 2 ^ (a.e - e0).toNat + b.m * 2 ^ (b.e - e0).toNat) e0

/-- Binary64 negation (exact). -/
def fneg (a : F64) : F64 := ⟨-a.m, a.e⟩

/-- Binary64 subtraction. -/
def fsub (a b : F64) : F64 := fadd a (fneg b)

/-- Binary64 division by two (exact on the normal range). -/
def fdiv2 (a : F64) : F64 := if a.m = 0 then ⟨0, 0⟩ else ⟨a.m, a.e - 1⟩

/-- The binary64 comparison a < b, on values. -/
def fltF (a b : F64) : Bool :=
  let e0 := min a.e b.e
  decide (a.m * 2 ^ (a.e - e0).toNat < b.m * 2 ^ (b.e - e0).toNat)

/-- A coordinate of binary64 components. -/
structure CoordinateF where
  x : F64
  y : F64
  deriving DecidableEq, Repr

/-- The range error of the binary64 `encode`, mirroring
`GeohashError::InvalidCoordinateRange`. -/
inductive GeohashErrorF where
  | InvalidCoordinateRange (c : CoordinateF)
  deriving DecidableEq, Repr

/-- The `encode` loop state of the binary64 model. -/
structure EncodeStateF where
  bits_total : Nat
  hash_value : Nat
  max_lat : F64
  min_lat : F64
  max_lon : F64
  min_lon : F64
  deriving DecidableEq, Repr

/-- Initial bounds of `encode` in the binary64 model. -/
def encInitF : EncodeStateF :=
  { bits_total := 0, hash_value := 0
    max_lat := ⟨90, 0⟩, min_lat := ⟨-90, 0⟩, max_lon := ⟨180, 0⟩, min_lon := ⟨-180, 0⟩ }

/-- One bisection step of `encode` (`core.rs` lines 48-68), binary64. -/
def encodeBitF (c : CoordinateF) (s : EncodeStateF) : EncodeStateF :=
  if s.bits_total % 2 == 0 then
    let mid := fdiv2 (fadd s.max_lon s.min_lon)
    if fltF mid c.x then
      { s with hash_value := s.hash_value * 2 + 1, min_lon := mid,
               bits_total := s.bits_total + 1 }
    else
      { s with hash_value := s.hash_value * 2, max_lon := mid,
               bits_total := s.bits_total + 1 }
  else
    let mid := fdiv2 (fadd s.max_lat s.min_lat)
    if fltF mid c.y then
      { s with hash_value := s.hash_value * 2 + 1, min_lat := mid,
               bits_total := s.bits_total + 1 }
    else
      { s with hash_value := s.hash_value * 2, max_lat := mid,
               bits_total := s.bits_total + 1 }

/-- The four bits of one output character, binary64. -/
def encodeCharF (c : CoordinateF) (s : EncodeStateF) : EncodeStateF :=
  encodeBitF c (encodeBitF c (encodeBitF c (encodeBitF c s)))

/-- The character loop of `encode`, binary64. -/
def encodeLoopF (c : CoordinateF) : Nat → EncodeStateF → List Char × EncodeStateF
  | 0, s => ([], s)
  | n + 1, s =>
    let s4 := encodeCharF c s
    let code := BASE32_CODES.getD s4.hash_value 'x'
    let rest := encodeLoopF c n { s4 with hash_value := 0 }
    (code :: rest.1, rest.2)

/-- `encode` (`core.rs` lines 33-76) in the binary64 model. -/
def encodeF (c : CoordinateF) (len : Nat) : Except GeohashErrorF (List Char) :=
  if fltF c.x ⟨-180, 0⟩ || fltF ⟨180, 0⟩ c.x || fltF c.y ⟨-90, 0⟩ || fltF ⟨90, 0⟩ c.y then
    .error (.InvalidCoordinateRange c)
  else
    .ok (encodeLoopF c len encInitF).1

/-- The `decode_bbox` loop state of the binary64 model. -/
structure DecodeStateF where
  is_lon : Bool
  max_lat : F64
  min_lat : F64
  max_lon : F64
  min_lon : F64
  deriving DecidableEq, Repr

/-- Initial state of `decode_bbox` in the binary64 model. -/
def decInitF : DecodeStateF :=
  { is_lon := true, max_lat := ⟨90, 0⟩, min_lat := ⟨-90, 0⟩,
    max_lon := ⟨180, 0⟩, min_lon := ⟨-180, 0⟩ }

/-- One bit of `decode_bbox` (`core.rs` lines 100-120), binary64. -/
def decodeBitF (bit : Nat) (s : DecodeStateF) : DecodeStateF :=
  if s.is_lon then
    let mid := fdiv2 (fadd s.max_lon s.min_lon)
    if bit == 1 then { s with min_lon := mid, is_lon := false }
    else { s with max_lon := mid, is_lon := false }
  else
    let mid := fdiv2 (fadd s.max_lat s.min_lat)
    if bit == 1 then { s with min_lat := mid, is_lon := true }
    else { s with max_lat := mid, is_lon := true }

/-- The four bits of one input character, binary64. -/
def decodeCharBitsF (hv : Nat) (s : DecodeStateF) : DecodeStateF :=
  decodeBitF (hv % 2)
    (decodeBitF (hv / 2 % 2) (decodeBitF (hv / 4 % 2) (decodeBitF (hv / 8 % 2) s)))

/-- The character loop of `decode_bbox`, binary64; character validation is
the shared `hash_value_of_char`. -/
def decodeLoopF : List Char → DecodeStateF → Except GeohashError DecodeStateF
  | [], s => .ok s
  | ch :: cs, s =>
    match hash_value_of_char ch with
    | .error e => .error e
    | .ok hv => decodeLoopF cs (decodeCharBitsF hv s)

/-- `decode` (`core.rs` lines 190-202) in the binary64 model: the centre of
the `decode_bbox` rectangle plus the half-widths. -/
def decodeF (hash_str : List Char) :
    Except GeohashError (CoordinateF × F64 × F64) :=
  match decodeLoopF hash_str decInitF with
  | .error e => .error e
  | .ok s =>
    .ok ({ x := fdiv2 (fadd s.min_lon s.max_lon), y := fdiv2 (fadd s.min_lat s.max_lat) },
         fdiv2 (fsub s.max_lon s.min_lon),
         fdiv2 (fsub s.max_lat s.min_lat))

/-- The decode-then-encode round trip of the binary64 model: decode the
string, re-encode the centre coordinate at the input length.  Any error on
either side yields none (the counterexample input produces none). -/
def roundtripF (hash_str : List Char) : Option (List Char) :=
  match decodeF hash_str with
  | .error _ => none
  | .ok (c, _, _) =>
    match encodeF c hash_str.length with
    | .error _ => none
    | .ok out => some out

end Geohash

namespace Geohash

/-! ### Helper lemmas: concrete values of the character table -/

lemma hv_char_0 : hash_value_of_char '0' = .ok 0 := by decide
lemma hv_char_1 : hash_value_of_char '1' = .ok 1 := by decide
lemma hv_char_2 : hash_value_of_char '2' = .ok 2 := by decide
lemma hv_char_3 : hash_value_of_char '3' = .ok 3 := by decide
lemma hv_char_4 : hash_value_of_char '4' = .ok 4 := by decide
lemma hv_char_5 : hash_value_of_char '5' = .ok 5 := by decide
lemma hv_char_6 : hash_value_of_char '6' = .ok 6 := by decide
lemma hv_char_7 : hash_value_of_char '7' = .ok 7 := by decide
lemma hv_char_8 : hash_value_of_char '8' = .ok 8 := by decide
lemma hv_char_9 : hash_value_of_char '9' = .ok 9 := by decide
lemma hv_char_a : hash_value_of_char 'a' = .ok 10 := by decide
lemma hv_char_b : hash_value_of_char 'b' = .ok 11 := by decide
lemma hv_char_c : hash_value_of_char 'c' = .ok 12 := by decide
lemma hv_char_d : hash_value_of_char 'd' = .ok 13 := by decide
lemma hv_char_e : hash_value_of_char 'e' = .ok 14 := by decide
lemma hv_char_f : hash_value_of_char 'f' = .ok 15 := by decide
lemma hv_char_w : hash_value_of_char 'w' = .error (.InvalidHashCharacter 'w') := by decide
lemma hv_char_A : hash_value_of_char 'A' = .error (.InvalidHashCharacter 'A') := by decide

/-! ### Claim theorems -/

/-- Claim C1: `encode` reproduces the reference vectors of the spec and of
`tests/base.rs`: the coordinate (x=112.5584, y=37.8324) at length 12 encodes
to "e71150dc9947", and (x=117, y=32) at length 3 encodes to "e65". -/
theorem c1_encode_reference_vectors :
    encode ⟨112.5584, 37.8324⟩ 12 = .ok ['e','7','1','1','5','0','d','c','9','9','4','7'] ∧
    encode ⟨117, 32⟩ 3 = .ok ['e','6','5'] := by
  constructor <;> norm_num [encode, encodeLoop, encodeChar, encodeBit, encInit, BASE32_CODES]

/-- Claim C10: `decode_bbox` accepts the empty string and returns the
full-world rectangle, so `decode` on the empty string returns the centre
(0, 0) with lon_err = 180 and lat_err = 90, raising no error. -/
theorem c10_decode_empty_string :
    decode_bbox [] = .ok ⟨⟨-180, -90⟩, ⟨180, 90⟩⟩ ∧
    decode [] = .ok (⟨0, 0⟩, 180, 90) := by
  constructor <;> norm_num [decode, decode_bbox, decodeLoop, decInit]

/-- Claim C5: `encode c len` fails with `InvalidCoordinateRange` carrying the
offending coordinate exactly when c.x < -180 or c.x > 180 or c.y < -90 or
c.y > 90; otherwise it returns Ok.  The boundary coordinates themselves are
accepted, and (x=190, y=-100) at length 3 is rejected. -/
theorem c5_encode_range_check :
    (∀ (c : Coordinate) (len : Nat),
      encode c len = .error (.InvalidCoordinateRange c) ↔
        (c.x < -180 ∨ c.x > 180 ∨ c.y < -90 ∨ c.y > 90)) ∧
    (∀ (c : Coordinate) (len : Nat),
      ¬(c.x < -180 ∨ c.x > 180 ∨ c.y < -90 ∨ c.y > 90) →
        encode c len = .ok (encodeLoop c len encInit).1) ∧
    encode ⟨190, -100⟩ 3 = .error (.InvalidCoordinateRange ⟨190, -100⟩) ∧
    encode ⟨180, 90⟩ 3 = .ok ['f','f','f'] ∧
    encode ⟨-180, -90⟩ 3 = .ok ['0','0','0'] := by
  refine ⟨fun c len => ?_, fun c len hc => ?_, ?_, ?_, ?_⟩
  · by_cases hc : c.x < -180 ∨ c.x > 180 ∨ c.y < -90 ∨ c.y > 90 <;>
      simp [encode, hc]
  · simp [encode, hc]
  · norm_num [encode]
  · norm_num [encode, encodeLoop, encodeChar, encodeBit, encInit, BASE32_CODES]
  · norm_num [encode, encodeLoop, encodeChar, encodeBit, encInit, BASE32_CODES]

/-- Witness for C5: the iff and the Ok-branch instantiated at concrete
coordinates. -/
theorem c5_encode_range_check_witness :
    encode ⟨190, -100⟩ 3 = .error (.InvalidCoordinateRange ⟨190, -100⟩) ∧
    encode ⟨0, 0⟩ 2 = .ok (encodeLoop ⟨0, 0⟩ 2 encInit).1 :=
  ⟨(c5_encode_range_check.1 ⟨190, -100⟩ 3).mpr (by norm_num),
   c5_encode_range_check.2.1 ⟨0, 0⟩ 2 (by norm_num)⟩

end Geohash

namespace Geohash

/-! ### Helper lemmas: the encode loop -/

lemma encodeBit_bits_total (c : Coordinate) (s : EncodeState) :
    (encodeBit c s).bits_total = s.bits_total + 1 := by
  simp only [encodeBit]
  split_ifs <;> rfl

lemma encodeChar_bits_total (c : Coordinate) (s : EncodeState) :
    (encodeChar c s).bits_total = s.bits_total + 4 := by
  simp only [encodeChar, encodeBit_bits_total]

lemma encodeLoop_length (c : Coordinate) :
    ∀ (n : Nat) (s : EncodeState), (encodeLoop c n s).1.length = n := by
  intro n
  induction n with
  | zero => intro s; rfl
  | succ n ih => intro s; simp [encodeLoop, ih]

lemma encodeLoop_bits_total (c : Coordinate) :
    ∀ (n : Nat) (s : EncodeState),
      (encodeLoop c n s).2.bits_total = s.bits_total + 4 * n := by
  intro n
  induction n with
  | zero => intro s; simp [encodeLoop]
  | succ n ih =>
    intro s
    simp only [encodeLoop, ih, encodeChar_bits_total]
    omega

lemma encodeBit_hash_le (c : Coordinate) (s : EncodeState) :
    (encodeBit c s).hash_value ≤ 2 * s.hash_value + 1 := by
  simp only [encodeBit]
  split_ifs <;> simp <;> omega

lemma encodeChar_hash_lt (c : Coordinate) (s : EncodeState)
    (h : s.hash_value = 0) : (encodeChar c s).hash_value < 16 := by
  have h1 := encodeBit_hash_le c s
  have h2 := encodeBit_hash_le c (encodeBit c s)
  have h3 := encodeBit_hash_le c (encodeBit c (encodeBit c s))
  have h4 := encodeBit_hash_le c (encodeBit c (encodeBit c (encodeBit c s)))
  simp only [encodeChar]
  omega

lemma getD_BASE32_mem : ∀ hv : Nat, hv < 16 → BASE32_CODES.getD hv 'x' ∈ BASE32_CODES := by
  decide

lemma encodeLoop_chars_mem (c : Coordinate) :
    ∀ (n : Nat) (s : EncodeState), s.hash_value = 0 →
      ∀ ch ∈ (encodeLoop c n s).1, ch ∈ BASE32_CODES := by
  intro n
  induction n with
  | zero => intro s _ ch hch; simp [encodeLoop] at hch
  | succ n ih =>
    intro s hs ch hch
    simp only [encodeLoop, List.mem_cons] at hch
    rcases hch with hch | hch
    · subst hch
      exact getD_BASE32_mem _ (encodeChar_hash_lt c s hs)
    · exact ih { encodeChar c s with hash_value := 0 } rfl ch hch

/-- Claim C9, counterexample: the spec claims the internal `i8` counter
`bits_total` never overflows, even for len >= 32; but already at len = 32
(with the in-range coordinate (0, 0)) the counter reaches 4 * 32 = 128,
which exceeds i8::MAX = 127 -- an arithmetic overflow of the source's `i8`
(a panic under debug assertions, a wraparound in release builds). -/
theorem c9_counterexample_bits_total_overflow :
    (encodeLoop ⟨0, 0⟩ 32 encInit).2.bits_total = 128 ∧ 127 < 128 := by
  refine ⟨?_, by norm_num⟩
  rw [encodeLoop_bits_total]
  rfl

/-- Claim C9, amended: for every in-range coordinate and every len with
4 * len <= 127 (i.e. len <= 31), `encode` terminates normally, returns Ok
with a string of exactly len characters, and the `bits_total` counter ends
at 4 * len, within the `i8` range; at len >= 32 the counter exceeds
i8::MAX = 127 (see the counterexample). -/
theorem c9_encode_total_within_i8 (c : Coordinate) (len : Nat)
    (hc : ¬(c.x < -180 ∨ c.x > 180 ∨ c.y < -90 ∨ c.y > 90))
    (hlen : len ≤ 31) :
    encode c len = .ok (encodeLoop c len encInit).1 ∧
    (encodeLoop c len encInit).1.length = len ∧
    (encodeLoop c len encInit).2.bits_total = 4 * len ∧
    4 * len ≤ 127 := by
  refine ⟨by simp [encode, hc], encodeLoop_length c len encInit, ?_, by omega⟩
  rw [encodeLoop_bits_total]
  simp [encInit]

/-- Witness for the amended C9 at the coordinate (0, 0) and len = 31. -/
theorem c9_encode_total_within_i8_witness :
    encode ⟨0, 0⟩ 31 = .ok (encodeLoop ⟨0, 0⟩ 31 encInit).1 ∧
    (encodeLoop ⟨0, 0⟩ 31 encInit).1.length = 31 ∧
    (encodeLoop ⟨0, 0⟩ 31 encInit).2.bits_total = 4 * 31 ∧
    4 * 31 ≤ 127 :=
  c9_encode_total_within_i8 ⟨0, 0⟩ 31 (by norm_num) (by norm_num)

end Geohash

namespace Geohash

/-! ### Helper lemmas: characters and the decode loop -/

lemma char_eq_of_toNat_eq {a b : Char} (h : a.toNat = b.toNat) : a = b :=
  Char.eq_of_val_eq (UInt32.eq_of_toBitVec_eq
    (BitVec.eq_of_toNat_eq (by simpa [UInt32.toNat] using h)))

lemma hash_value_of_char_lt {ch : Char} {hv : Nat}
    (h : hash_value_of_char ch = .ok hv) : hv < 16 := by
  simp only [hash_value_of_char] at h
  split_ifs at h with h1 h2
  · simp only [Except.ok.injEq] at h; omega
  · simp only [Except.ok.injEq] at h; omega

lemma hash_value_of_char_toNat {ch : Char} {hv : Nat}
    (h : hash_value_of_char ch = .ok hv) :
    (hv ≤ 9 ∧ ch.toNat = hv + 48) ∨ (10 ≤ hv ∧ hv ≤ 15 ∧ ch.toNat = hv + 87) := by
  simp only [hash_value_of_char] at h
  split_ifs at h with h1 h2
  · simp only [Except.ok.injEq] at h; omega
  · simp only [Except.ok.injEq] at h; omega

lemma hash_value_of_char_error_shape {ch : Char} {e : GeohashError}
    (h : hash_value_of_char ch = .error e) : e = .InvalidHashCharacter ch := by
  simp only [hash_value_of_char] at h
  split_ifs at h <;> simp_all

lemma BASE32_getD_inv {ch : Char} {hv : Nat}
    (h : hash_value_of_char ch = .ok hv) : BASE32_CODES.getD hv 'x' = ch := by
  have hlt := hash_value_of_char_lt h
  have htn := hash_value_of_char_toNat h
  apply char_eq_of_toNat_eq
  interval_cases hv <;> rcases htn with ⟨h9, htn⟩ | ⟨h10, h15, htn⟩ <;>
    first
      | omega
      | (rw [htn]; decide)

lemma hash_ok_iff_mem (ch : Char) :
    (∃ hv, hash_value_of_char ch = .ok hv) ↔ ch ∈ BASE32_CODES := by
  constructor
  · rintro ⟨hv, h⟩
    rw [← BASE32_getD_inv h]
    exact getD_BASE32_mem hv (hash_value_of_char_lt h)
  · intro h
    fin_cases h
    exacts [⟨0, hv_char_0⟩, ⟨1, hv_char_1⟩, ⟨2, hv_char_2⟩, ⟨3, hv_char_3⟩,
      ⟨4, hv_char_4⟩, ⟨5, hv_char_5⟩, ⟨6, hv_char_6⟩, ⟨7, hv_char_7⟩,
      ⟨8, hv_char_8⟩, ⟨9, hv_char_9⟩, ⟨10, hv_char_a⟩, ⟨11, hv_char_b⟩,
      ⟨12, hv_char_c⟩, ⟨13, hv_char_d⟩, ⟨14, hv_char_e⟩, ⟨15, hv_char_f⟩]

lemma decodeLoop_ok_of_valid :
    ∀ (cs : List Char) (s : DecodeState),
      (∀ ch ∈ cs, ch ∈ BASE32_CODES) → ∃ r, decodeLoop cs s = .ok r := by
  intro cs
  induction cs with
  | nil => intro s _; exact ⟨s, rfl⟩
  | cons ch cs ih =>
    intro s hv
    obtain ⟨v, hvch⟩ := (hash_ok_iff_mem ch).mpr (hv ch (by simp))
    obtain ⟨r, hr⟩ := ih (decodeCharBits v s) (fun c hc => hv c (by simp [hc]))
    exact ⟨r, by simp [decodeLoop, hvch, hr]⟩

lemma decodeLoop_ok_valid :
    ∀ (cs : List Char) (s r : DecodeState), decodeLoop cs s = .ok r →
      ∀ ch ∈ cs, ch ∈ BASE32_CODES := by
  intro cs
  induction cs with
  | nil => intro s r _ ch hch; simp at hch
  | cons c0 cs ih =>
    intro s r h ch hch
    rcases hv : hash_value_of_char c0 with e | v
    · simp [decodeLoop, hv] at h
    · simp only [decodeLoop, hv] at h
      rcases List.mem_cons.mp hch with hch | hch
      · subst hch; exact (hash_ok_iff_mem ch).mp ⟨v, hv⟩
      · exact ih (decodeCharBits v s) r h ch hch

lemma decodeLoop_error_shape :
    ∀ (cs : List Char) (s : DecodeState) (e : GeohashError),
      decodeLoop cs s = .error e →
      ∃ ch, ch ∈ cs ∧ ch ∉ BASE32_CODES ∧ e = .InvalidHashCharacter ch := by
  intro cs
  induction cs with
  | nil => intro s e h; simp [decodeLoop] at h
  | cons c0 cs ih =>
    intro s e h
    rcases hv : hash_value_of_char c0 with e0 | v
    · simp only [decodeLoop, hv, Except.error.injEq] at h
      refine ⟨c0, by simp, ?_, ?_⟩
      · intro hmem
        obtain ⟨w, hw⟩ := (hash_ok_iff_mem c0).mpr hmem
        rw [hv] at hw
        exact absurd hw (by simp)
      · rw [← h]
        exact hash_value_of_char_error_shape hv
    · simp only [decodeLoop, hv] at h
      obtain ⟨ch, hmem, hinv, he⟩ := ih (decodeCharBits v s) e h
      exact ⟨ch, by simp [hmem], hinv, he⟩

lemma decode_bbox_ok_iff (h : List Char) (s : DecodeState) :
    decodeLoop h decInit = .ok s →
      decode_bbox h = .ok ⟨⟨s.min_lon, s.min_lat⟩, ⟨s.max_lon, s.max_lat⟩⟩ := by
  intro hs
  simp [decode_bbox, hs]

/-! ### Claims on the decode error contract and the decode shape -/

/-- Claim C2: `decode` returns exactly the midpoint of the `decode_bbox`
rectangle plus its half-widths; concretely, "e71150" decodes to
(112.5439453125, 37.81494140625) with lon_err = 0.0439453125 and
lat_err = 0.02197265625, which is within 1e-5 of the spec's reference
values. -/
theorem c2_decode_center_halfwidths :
    (∀ (h : List Char) (rect : Rect), decode_bbox h = .ok rect →
      decode h = .ok (⟨(rect.min.x + rect.max.x) / 2, (rect.min.y + rect.max.y) / 2⟩,
        (rect.max.x - rect.min.x) / 2, (rect.max.y - rect.min.y) / 2)) ∧
    decode_bbox ['e','7','1','1','5','0'] =
      .ok ⟨⟨115200/1024, 77400/2048⟩, ⟨115290/1024, 77490/2048⟩⟩ ∧
    decode ['e','7','1','1','5','0'] =
      .ok (⟨115245/1024, 77445/2048⟩, 45/1024, 45/2048) ∧
    |(115245/1024 : ℚ) - 112.543945| < 1e-5 ∧
    |(77445/2048 : ℚ) - 37.814941| < 1e-5 ∧
    (45/1024 : ℚ) = 0.0439453125 ∧ (45/2048 : ℚ) = 0.02197265625 := by
  refine ⟨fun h rect hrect => by simp [decode, hrect], ?_, ?_, ?_, ?_, by norm_num, by norm_num⟩
  · norm_num [decode_bbox, decodeLoop, decodeCharBits, decodeBit, decInit,
      hv_char_0, hv_char_1, hv_char_5, hv_char_7, hv_char_e]
  · norm_num [decode, decode_bbox, decodeLoop, decodeCharBits, decodeBit, decInit,
      hv_char_0, hv_char_1, hv_char_5, hv_char_7, hv_char_e]
  · rw [abs_sub_lt_iff]; constructor <;> norm_num
  · rw [abs_sub_lt_iff]; constructor <;> norm_num

/-- Witness for C2: the midpoint formula instantiated on the rectangle of
"e71150". -/
theorem c2_decode_center_halfwidths_witness :
    decode ['e','7','1','1','5','0'] =
      .ok (⟨(115200/1024 + 115290/1024) / 2, (77400/2048 + 77490/2048) / 2⟩,
        (115290/1024 - 115200/1024) / 2, (77490/2048 - 77400/2048) / 2) :=
  c2_decode_center_halfwidths.1 ['e','7','1','1','5','0']
    ⟨⟨115200/1024, 77400/2048⟩, ⟨115290/1024, 77490/2048⟩⟩
    c2_decode_center_halfwidths.2.1

/-- Claim C6: `decode_bbox` (and `decode`, which propagates the same error)
fails with `InvalidHashCharacter` carrying an offending character exactly
when the input contains a character outside 0123456789abcdef; uppercase
letters are rejected, and "wwgj" fails carrying the first offending
character. -/
theorem c6_decode_invalid_characters :
    (∀ (h : List Char) (e : GeohashError), decode_bbox h = .error e →
      ∃ ch, ch ∈ h ∧ ch ∉ BASE32_CODES ∧ e = .InvalidHashCharacter ch) ∧
    (∀ h : List Char, (∀ ch ∈ h, ch ∈ BASE32_CODES) ↔ ∃ r, decode_bbox h = .ok r) ∧
    (∀ (h : List Char) (e : GeohashError), decode h = .error e ↔ decode_bbox h = .error e) ∧
    decode_bbox ['A'] = .error (.InvalidHashCharacter 'A') ∧
    decode_bbox ['w','w','g','j'] = .error (.InvalidHashCharacter 'w') ∧
    decode ['w','w','g','j'] = .error (.InvalidHashCharacter 'w') := by
  refine ⟨?_, ?_, ?_, ?_, ?_, ?_⟩
  · intro h e herr
    rcases hd : decodeLoop h decInit with e0 | s
    · rw [decode_bbox, hd] at herr
      simp only [Except.error.injEq] at herr
      exact herr ▸ decodeLoop_error_shape h decInit e0 hd
    · rw [decode_bbox, hd] at herr
      exact absurd herr (by simp)
  · intro h
    constructor
    · intro hall
      obtain ⟨s, hs⟩ := decodeLoop_ok_of_valid h decInit hall
      exact ⟨_, decode_bbox_ok_iff h s hs⟩
    · rintro ⟨r, hr⟩
      rcases hd : decodeLoop h decInit with e0 | s
      · rw [decode_bbox, hd] at hr; exact absurd hr (by simp)
      · exact decodeLoop_ok_valid h decInit s hd
  · intro h e
    rcases hd : decode_bbox h with e0 | r <;> simp [decode, hd]
  · simp [decode_bbox, decodeLoop, hv_char_A]
  · simp [decode_bbox, decodeLoop, hv_char_w]
  · simp [decode, decode_bbox, decodeLoop, hv_char_w]

/-- Witness for C6: the error-shape implication instantiated on "wwgj". -/
theorem c6_decode_invalid_characters_witness :
    ∃ ch, ch ∈ ['w','w','g','j'] ∧ ch ∉ BASE32_CODES ∧
      GeohashError.InvalidHashCharacter 'w' = .InvalidHashCharacter ch :=
  c6_decode_invalid_characters.1 ['w','w','g','j'] (.InvalidHashCharacter 'w')
    c6_decode_invalid_characters.2.2.2.2.1

end Geohash

namespace Geohash

/-! ### Claims on neighbor derivation -/

/-- Claim C4: `neighbor` decodes to a centre plus error margins, shifts the
centre by exactly 2*|lon_err|*dlng in longitude and 2*|lat_err|*dlat in
latitude for the direction's sign tuple, and re-encodes at the input
length; concretely `neighbors` of "e7115" returns sw=e5bbe, s=e7114,
se=e7116, w=e5bbf, e=e7117, nw=e5bea, n=e7140, ne=e7142. -/
theorem c4_neighbor_shift_reencode :
    (∀ (h : List Char) (d : Direction) (coord : Coordinate) (lon_err lat_err : ℚ),
      decode h = .ok (coord, lon_err, lat_err) →
      neighbor h d = encode
        ⟨coord.x + 2 * |lon_err| * d.to_tuple.2, coord.y + 2 * |lat_err| * d.to_tuple.1⟩
        h.length) ∧
    neighbors ['e','7','1','1','5'] = .ok
      { sw := ['e','5','b','b','e'], s := ['e','7','1','1','4'], se := ['e','7','1','1','6'],
        w := ['e','5','b','b','f'], e := ['e','7','1','1','7'], nw := ['e','5','b','e','a'],
        n := ['e','7','1','4','0'], ne := ['e','7','1','4','2'] } := by
  constructor
  · intro h d coord le la hdec
    simp [neighbor, hdec]
  · norm_num [neighbors, neighbor, decode, decode_bbox, decodeLoop, decodeCharBits,
      decodeBit, decInit, hv_char_1, hv_char_4, hv_char_5, hv_char_7, hv_char_e,
      Direction.to_tuple, encode, encodeLoop, encodeChar, encodeBit, encInit,
      BASE32_CODES, abs_of_nonneg]

/-- Witness for C4: the shift-and-re-encode equation instantiated on "e7115"
going north. -/
theorem c4_neighbor_shift_reencode_witness :
    neighbor ['e','7','1','1','5'] .N = encode
      ⟨28845/256 + 2 * |(45/256 : ℚ)| * (Direction.to_tuple .N).2,
       19395/512 + 2 * |(45/512 : ℚ)| * (Direction.to_tuple .N).1⟩ 5 :=
  c4_neighbor_shift_reencode.1 ['e','7','1','1','5'] .N ⟨28845/256, 19395/512⟩
    (45/256) (45/512)
    (by norm_num [decode, decode_bbox, decodeLoop, decodeCharBits, decodeBit, decInit,
      hv_char_1, hv_char_5, hv_char_7, hv_char_e])

/-- Claim C8: `neighbors h` returns Ok exactly when all eight single
`neighbor h d` calls return Ok, with each field equal to the corresponding
neighbor result; any failure surfaces some direction's error unchanged,
with no partial results. -/
theorem c8_neighbors_all_or_nothing :
    (∀ (h : List Char) (ns : Neighbors),
      neighbors h = .ok ns ↔
        (neighbor h .SW = .ok ns.sw ∧ neighbor h .S = .ok ns.s ∧
         neighbor h .SE = .ok ns.se ∧ neighbor h .W = .ok ns.w ∧
         neighbor h .E = .ok ns.e ∧ neighbor h .NW = .ok ns.nw ∧
         neighbor h .N = .ok ns.n ∧ neighbor h .NE = .ok ns.ne)) ∧
    (∀ (h : List Char) (e : GeohashError),
      neighbors h = .error e → ∃ d : Direction, neighbor h d = .error e) := by
  constructor
  · intro h ns
    obtain ⟨vn, vne, ve, vse, vs, vsw, vw, vnw⟩ := ns
    simp only [neighbors]
    rcases neighbor h .SW with esw | usw <;>
      rcases neighbor h .S with es | us <;>
        rcases neighbor h .SE with ese | use <;>
          rcases neighbor h .W with ew | uw <;>
            rcases neighbor h .E with ee | ue <;>
              rcases neighbor h .NW with enw | unw <;>
                rcases neighbor h .N with en | un <;>
                  rcases neighbor h .NE with ene | une <;>
                    simp [Neighbors.mk.injEq, and_assoc, and_comm, and_left_comm]
  · intro h e hne
    simp only [neighbors] at hne
    rcases hsw : neighbor h .SW with esw | usw <;> rw [hsw] at hne
    · simp only [Except.error.injEq] at hne
      exact ⟨.SW, hne ▸ hsw⟩
    rcases hs : neighbor h .S with es | us <;> rw [hs] at hne
    · simp only [Except.error.injEq] at hne
      exact ⟨.S, hne ▸ hs⟩
    rcases hse : neighbor h .SE with ese | use <;> rw [hse] at hne
    · simp only [Except.error.injEq] at hne
      exact ⟨.SE, hne ▸ hse⟩
    rcases hw : neighbor h .W with ew | uw <;> rw [hw] at hne
    · simp only [Except.error.injEq] at hne
      exact ⟨.W, hne ▸ hw⟩
    rcases he : neighbor h .E with ee | ue <;> rw [he] at hne
    · simp only [Except.error.injEq] at hne
      exact ⟨.E, hne ▸ he⟩
    rcases hnw : neighbor h .NW with enw | unw <;> rw [hnw] at hne
    · simp only [Except.error.injEq] at hne
      exact ⟨.NW, hne ▸ hnw⟩
    rcases hn : neighbor h .N with en | un <;> rw [hn] at hne
    · simp only [Except.error.injEq] at hne
      exact ⟨.N, hne ▸ hn⟩
    rcases hnee : neighbor h .NE with ene | une <;> rw [hnee] at hne
    · simp only [Except.error.injEq] at hne
      exact ⟨.NE, hne ▸ hnee⟩
    · exact absurd hne (by simp)

end Geohash

namespace Geohash

/-! ### Helper lemmas: cell widths of the decode loop -/

lemma decodeBit_is_lon (b : Nat) (s : DecodeState) :
    (decodeBit b s).is_lon = !s.is_lon := by
  simp only [decodeBit]
  split_ifs with h1 h2 h2 <;> simp_all

lemma decodeBit_widths_lon (b : Nat) (s : DecodeState) (h : s.is_lon = true) :
    (decodeBit b s).max_lon - (decodeBit b s).min_lon = (s.max_lon - s.min_lon) / 2 ∧
    (decodeBit b s).max_lat = s.max_lat ∧ (decodeBit b s).min_lat = s.min_lat := by
  simp only [decodeBit]
  rw [if_pos h]
  split_ifs <;> exact ⟨by ring, rfl, rfl⟩

lemma decodeBit_widths_lat (b : Nat) (s : DecodeState) (h : s.is_lon = false) :
    (decodeBit b s).max_lat - (decodeBit b s).min_lat = (s.max_lat - s.min_lat) / 2 ∧
    (decodeBit b s).max_lon = s.max_lon ∧ (decodeBit b s).min_lon = s.min_lon := by
  simp only [decodeBit]
  rw [if_neg (by simp [h])]
  split_ifs <;> exact ⟨by ring, rfl, rfl⟩

lemma decodeCharBits_widths (hv : Nat) (s : DecodeState) (h : s.is_lon = true) :
    (decodeCharBits hv s).is_lon = true ∧
    (decodeCharBits hv s).max_lon - (decodeCharBits hv s).min_lon
      = (s.max_lon - s.min_lon) / 4 ∧
    (decodeCharBits hv s).max_lat - (decodeCharBits hv s).min_lat
      = (s.max_lat - s.min_lat) / 4 := by
  obtain ⟨a1, a2, a3⟩ := decodeBit_widths_lon (hv / 8 % 2) s h
  have e1 : (decodeBit (hv / 8 % 2) s).is_lon = false := by
    rw [decodeBit_is_lon, h]; rfl
  obtain ⟨b1, b2, b3⟩ := decodeBit_widths_lat (hv / 4 % 2) (decodeBit (hv / 8 % 2) s) e1
  have e2 : (decodeBit (hv / 4 % 2) (decodeBit (hv / 8 % 2) s)).is_lon = true := by
    rw [decodeBit_is_lon, e1]; rfl
  obtain ⟨c1, c2, c3⟩ := decodeBit_widths_lon (hv / 2 % 2)
    (decodeBit (hv / 4 % 2) (decodeBit (hv / 8 % 2) s)) e2
  have e3 : (decodeBit (hv / 2 % 2)
      (decodeBit (hv / 4 % 2) (decodeBit (hv / 8 % 2) s))).is_lon = false := by
    rw [decodeBit_is_lon, e2]; rfl
  obtain ⟨d1, d2, d3⟩ := decodeBit_widths_lat (hv % 2)
    (decodeBit (hv / 2 % 2) (decodeBit (hv / 4 % 2) (decodeBit (hv / 8 % 2) s))) e3
  have e4 : (decodeBit (hv % 2) (decodeBit (hv / 2 % 2)
      (decodeBit (hv / 4 % 2) (decodeBit (hv / 8 % 2) s)))).is_lon = true := by
    rw [decodeBit_is_lon, e3]; rfl
  refine ⟨e4, ?_, ?_⟩
  · simp only [decodeCharBits]
    rw [d2, d3, c1, b2, b3, a1]; ring
  · simp only [decodeCharBits]
    rw [d1, c2, c3, b1, a2, a3]; ring

lemma decodeLoop_widths :
    ∀ (cs : List Char) (s r : DecodeState), s.is_lon = true →
      decodeLoop cs s = .ok r →
      r.is_lon = true ∧
      r.max_lon - r.min_lon = (s.max_lon - s.min_lon) / 4 ^ cs.length ∧
      r.max_lat - r.min_lat = (s.max_lat - s.min_lat) / 4 ^ cs.length := by
  intro cs
  induction cs with
  | nil =>
    intro s r hlon h
    simp only [decodeLoop, Except.ok.injEq] at h
    subst h
    simp [hlon]
  | cons c0 cs ih =>
    intro s r hlon h
    rcases hv : hash_value_of_char c0 with e | v
    · simp [decodeLoop, hv] at h
    · simp only [decodeLoop, hv] at h
      obtain ⟨hlon1, hw1, hw2⟩ := decodeCharBits_widths v s hlon
      obtain ⟨hlonr, hwr1, hwr2⟩ := ih (decodeCharBits v s) r hlon1 h
      refine ⟨hlonr, ?_, ?_⟩
      · rw [hwr1, hw1, List.length_cons, pow_succ]; ring
      · rw [hwr2, hw2, List.length_cons, pow_succ]; ring

/-- Claim C7, amended: for every in-range coordinate and every len with
1 ≤ len and len + 1 ≤ 23 — the depth through which every value the program
computes is exactly representable in binary64, so the rational model
coincides with the program — the lon_err and lat_err returned by
decode (encode c len) are exactly 180 / 4 ^ len and 90 / 4 ^ len, and both
strictly decrease when len increases by one.  At greater depths the
program's f64 errors plateau instead of decreasing (see the counterexample
at (180, 90), len 27 versus 28). -/
theorem c7_monotonic_precision (c : Coordinate) (len : Nat)
    (hc : ¬(c.x < -180 ∨ c.x > 180 ∨ c.y < -90 ∨ c.y > 90)) (hlen : 1 ≤ len)
    (hlen23 : len + 1 ≤ 23) :
    ∃ (h1 h2 : List Char) (p1 p2 : Coordinate × ℚ × ℚ),
      encode c len = .ok h1 ∧ encode c (len + 1) = .ok h2 ∧
      decode h1 = .ok p1 ∧ decode h2 = .ok p2 ∧
      p1.2.1 = 180 / 4 ^ len ∧ p1.2.2 = 90 / 4 ^ len ∧
      p2.2.1 = 180 / 4 ^ (len + 1) ∧ p2.2.2 = 90 / 4 ^ (len + 1) ∧
      p2.2.1 < p1.2.1 ∧ p2.2.2 < p1.2.2 := by
  have key : ∀ n : Nat, ∃ p : Coordinate × ℚ × ℚ,
      decode (encodeLoop c n encInit).1 = .ok p ∧
      p.2.1 = 180 / 4 ^ n ∧ p.2.2 = 90 / 4 ^ n := by
    intro n
    have hvalid := encodeLoop_chars_mem c n encInit rfl
    obtain ⟨s, hs⟩ := decodeLoop_ok_of_valid (encodeLoop c n encInit).1 decInit hvalid
    obtain ⟨hlon, hw1, hw2⟩ := decodeLoop_widths (encodeLoop c n encInit).1 decInit s rfl hs
    rw [encodeLoop_length] at hw1 hw2
    have hbbox := decode_bbox_ok_iff (encodeLoop c n encInit).1 s hs
    refine ⟨(⟨(s.min_lon + s.max_lon) / 2, (s.min_lat + s.max_lat) / 2⟩,
      (s.max_lon - s.min_lon) / 2, (s.max_lat - s.min_lat) / 2), ?_, ?_, ?_⟩
    · simp [decode, hbbox]
    · show (s.max_lon - s.min_lon) / 2 = 180 / 4 ^ n
      rw [hw1]; show ((180 : ℚ) - -180) / 4 ^ n / 2 = 180 / 4 ^ n; ring
    · show (s.max_lat - s.min_lat) / 2 = 90 / 4 ^ n
      rw [hw2]; show ((90 : ℚ) - -90) / 4 ^ n / 2 = 90 / 4 ^ n; ring
  obtain ⟨p1, hp1, he1, he2⟩ := key len
  obtain ⟨p2, hp2, hf1, hf2⟩ := key (len + 1)
  have hpow : (4 : ℚ) ^ len < 4 ^ (len + 1) := by
    have : (0 : ℚ) < 4 ^ len := by positivity
    calc (4 : ℚ) ^ len < 4 ^ len * 4 := by linarith
    _ = 4 ^ (len + 1) := by rw [pow_succ]
  refine ⟨_, _, p1, p2, by simp [encode, hc], by simp [encode, hc], hp1, hp2,
    he1, he2, hf1, hf2, ?_, ?_⟩
  · rw [he1, hf1]
    apply div_lt_div_of_pos_left (by norm_num) (by positivity) hpow
  · rw [he2, hf2]
    apply div_lt_div_of_pos_left (by norm_num) (by positivity) hpow

/-- Witness for C7 at the coordinate (0, 0) and len = 1. -/
theorem c7_monotonic_precision_witness :
    ∃ (h1 h2 : List Char) (p1 p2 : Coordinate × ℚ × ℚ),
      encode ⟨0, 0⟩ 1 = .ok h1 ∧ encode ⟨0, 0⟩ (1 + 1) = .ok h2 ∧
      decode h1 = .ok p1 ∧ decode h2 = .ok p2 ∧
      p1.2.1 = 180 / 4 ^ 1 ∧ p1.2.2 = 90 / 4 ^ 1 ∧
      p2.2.1 = 180 / 4 ^ (1 + 1) ∧ p2.2.2 = 90 / 4 ^ (1 + 1) ∧
      p2.2.1 < p1.2.1 ∧ p2.2.2 < p1.2.2 :=
  c7_monotonic_precision ⟨0, 0⟩ 1 (by norm_num) (by norm_num) (by norm_num)

end Geohash

namespace Geohash

/-! ### Helper lemmas: the decode loop only shrinks its cell, and the centre
of the final cell re-encodes to the original bits -/

lemma decodeBit_shrink (b : Nat) (s : DecodeState)
    (hlon : s.min_lon < s.max_lon) (hlat : s.min_lat < s.max_lat) :
    (decodeBit b s).min_lon < (decodeBit b s).max_lon ∧
    (decodeBit b s).min_lat < (decodeBit b s).max_lat ∧
    s.min_lon ≤ (decodeBit b s).min_lon ∧ (decodeBit b s).max_lon ≤ s.max_lon ∧
    s.min_lat ≤ (decodeBit b s).min_lat ∧ (decodeBit b s).max_lat ≤ s.max_lat := by
  simp only [decodeBit]
  split_ifs <;> refine ⟨?_, ?_, ?_, ?_, ?_, ?_⟩ <;> simp <;> linarith

lemma decodeCharBits_shrink (hv : Nat) (s : DecodeState)
    (hlon : s.min_lon < s.max_lon) (hlat : s.min_lat < s.max_lat) :
    (decodeCharBits hv s).min_lon < (decodeCharBits hv s).max_lon ∧
    (decodeCharBits hv s).min_lat < (decodeCharBits hv s).max_lat ∧
    s.min_lon ≤ (decodeCharBits hv s).min_lon ∧
    (decodeCharBits hv s).max_lon ≤ s.max_lon ∧
    s.min_lat ≤ (decodeCharBits hv s).min_lat ∧
    (decodeCharBits hv s).max_lat ≤ s.max_lat := by
  simp only [decodeCharBits]
  obtain ⟨p1, q1, a1, a2, a3, a4⟩ := decodeBit_shrink (hv / 8 % 2) s hlon hlat
  obtain ⟨p2, q2, b1, b2, b3, b4⟩ := decodeBit_shrink (hv / 4 % 2) _ p1 q1
  obtain ⟨p3, q3, c1, c2, c3, c4⟩ := decodeBit_shrink (hv / 2 % 2) _ p2 q2
  obtain ⟨p4, q4, d1, d2, d3, d4⟩ := decodeBit_shrink (hv % 2) _ p3 q3
  exact ⟨p4, q4,
    le_trans (le_trans (le_trans a1 b1) c1) d1,
    le_trans d2 (le_trans c2 (le_trans b2 a2)),
    le_trans (le_trans (le_trans a3 b3) c3) d3,
    le_trans d4 (le_trans c4 (le_trans b4 a4))⟩

lemma decodeLoop_shrink :
    ∀ (cs : List Char) (s r : DecodeState),
      s.min_lon < s.max_lon → s.min_lat < s.max_lat →
      decodeLoop cs s = .ok r →
      r.min_lon < r.max_lon ∧ r.min_lat < r.max_lat ∧
      s.min_lon ≤ r.min_lon ∧ r.max_lon ≤ s.max_lon ∧
      s.min_lat ≤ r.min_lat ∧ r.max_lat ≤ s.max_lat := by
  intro cs
  induction cs with
  | nil =>
    intro s r h1 h2 h
    simp only [decodeLoop, Except.ok.injEq] at h
    subst h
    exact ⟨h1, h2, le_refl _, le_refl _, le_refl _, le_refl _⟩
  | cons c0 cs ih =>
    intro s r h1 h2 h
    rcases hv : hash_value_of_char c0 with e | v
    · simp [decodeLoop, hv] at h
    · simp only [decodeLoop, hv] at h
      obtain ⟨p1, p2, a1, a2, a3, a4⟩ := decodeCharBits_shrink v s h1 h2
      obtain ⟨q1, q2, b1, b2, b3, b4⟩ := ih (decodeCharBits v s) r p1 p2 h
      exact ⟨q1, q2, le_trans a1 b1, le_trans b2 a2, le_trans a3 b3, le_trans b4 a4⟩

lemma decodeCharBits_is_lon (hv : Nat) (s : DecodeState) :
    (decodeCharBits hv s).is_lon = s.is_lon := by
  simp [decodeCharBits, decodeBit_is_lon]

lemma parity_flip {b : Bool} {n : Nat} (h : b = true ↔ n % 2 = 0) :
    (!b) = true ↔ (n + 1) % 2 = 0 := by
  cases b <;> simp_all <;> omega

lemma parity_add_four {b : Bool} {n : Nat} (h : b = true ↔ n % 2 = 0) :
    b = true ↔ (n + 4) % 2 = 0 := by
  constructor
  · intro hb
    have := h.mp hb
    omega
  · intro hm
    exact h.mpr (by omega)

lemma encodeBit_sim (cF : Coordinate) (e : EncodeState) (s : DecodeState) (b : Nat)
    (hb : b ≤ 1)
    (hq1 : e.min_lon = s.min_lon) (hq2 : e.max_lon = s.max_lon)
    (hq3 : e.min_lat = s.min_lat) (hq4 : e.max_lat = s.max_lat)
    (hpar : s.is_lon = true ↔ e.bits_total % 2 = 0)
    (fmin_lon fmax_lon fmin_lat fmax_lat : ℚ)
    (hcx : cF.x = (fmin_lon + fmax_lon) / 2) (hcy : cF.y = (fmin_lat + fmax_lat) / 2)
    (hfp1 : fmin_lon < fmax_lon) (hfp2 : fmin_lat < fmax_lat)
    (hsub1 : (decodeBit b s).min_lon ≤ fmin_lon)
    (hsub2 : fmax_lon ≤ (decodeBit b s).max_lon)
    (hsub3 : (decodeBit b s).min_lat ≤ fmin_lat)
    (hsub4 : fmax_lat ≤ (decodeBit b s).max_lat) :
    (encodeBit cF e).min_lon = (decodeBit b s).min_lon ∧
    (encodeBit cF e).max_lon = (decodeBit b s).max_lon ∧
    (encodeBit cF e).min_lat = (decodeBit b s).min_lat ∧
    (encodeBit cF e).max_lat = (decodeBit b s).max_lat ∧
    (encodeBit cF e).bits_total = e.bits_total + 1 ∧
    (encodeBit cF e).hash_value = e.hash_value * 2 + b := by
  have hb01 : b = 0 ∨ b = 1 := by omega
  cases hsl : s.is_lon with
  | true =>
    rw [hsl] at hpar
    have hbt : e.bits_total % 2 = 0 := hpar.mp rfl
    have hbeq : (e.bits_total % 2 == 0) = true := by simp [hbt]
    rcases hb01 with rfl | rfl
    · have hdec : decodeBit 0 s =
          { s with max_lon := (s.max_lon + s.min_lon) / 2, is_lon := false } := by
        simp [decodeBit, hsl]
      rw [hdec] at hsub1 hsub2 hsub3 hsub4
      simp only at hsub1 hsub2 hsub3 hsub4
      have hcmp : ¬((s.max_lon + s.min_lon) / 2 < cF.x) := by
        rw [hcx]
        intro hgt
        linarith
      refine ⟨?_, ?_, ?_, ?_, ?_, ?_⟩ <;>
        simp [encodeBit, hbeq, hcmp, hdec, hq1, hq2, hq3, hq4]
    · have hdec : decodeBit 1 s =
          { s with min_lon := (s.max_lon + s.min_lon) / 2, is_lon := false } := by
        simp [decodeBit, hsl]
      rw [hdec] at hsub1 hsub2 hsub3 hsub4
      simp only at hsub1 hsub2 hsub3 hsub4
      have hcmp : (s.max_lon + s.min_lon) / 2 < cF.x := by
        rw [hcx]
        linarith
      refine ⟨?_, ?_, ?_, ?_, ?_, ?_⟩ <;>
        simp [encodeBit, hbeq, hcmp, hdec, hq1, hq2, hq3, hq4]
  | false =>
    rw [hsl] at hpar
    have hbt : ¬(e.bits_total % 2 = 0) := fun hm => by simpa using hpar.mpr hm
    have hbeq : (e.bits_total % 2 == 0) = false := by simp [hbt]
    rcases hb01 with rfl | rfl
    · have hdec : decodeBit 0 s =
          { s with max_lat := (s.max_lat + s.min_lat) / 2, is_lon := true } := by
        simp [decodeBit, hsl]
      rw [hdec] at hsub1 hsub2 hsub3 hsub4
      simp only at hsub1 hsub2 hsub3 hsub4
      have hcmp : ¬((s.max_lat + s.min_lat) / 2 < cF.y) := by
        rw [hcy]
        intro hgt
        linarith
      refine ⟨?_, ?_, ?_, ?_, ?_, ?_⟩ <;>
        simp [encodeBit, hbeq, hcmp, hdec, hq1, hq2, hq3, hq4]
    · have hdec : decodeBit 1 s =
          { s with min_lat := (s.max_lat + s.min_lat) / 2, is_lon := true } := by
        simp [decodeBit, hsl]
      rw [hdec] at hsub1 hsub2 hsub3 hsub4
      simp only at hsub1 hsub2 hsub3 hsub4
      have hcmp : (s.max_lat + s.min_lat) / 2 < cF.y := by
        rw [hcy]
        linarith
      refine ⟨?_, ?_, ?_, ?_, ?_, ?_⟩ <;>
        simp [encodeBit, hbeq, hcmp, hdec, hq1, hq2, hq3, hq4]

end Geohash

namespace Geohash

lemma encodeChar_sim (cF : Coordinate) (e : EncodeState) (s : DecodeState) (hv : Nat)
    (hv16 : hv < 16)
    (hq1 : e.min_lon = s.min_lon) (hq2 : e.max_lon = s.max_lon)
    (hq3 : e.min_lat = s.min_lat) (hq4 : e.max_lat = s.max_lat)
    (hpar : s.is_lon = true ↔ e.bits_total % 2 = 0)
    (fmin_lon fmax_lon fmin_lat fmax_lat : ℚ)
    (hcx : cF.x = (fmin_lon + fmax_lon) / 2) (hcy : cF.y = (fmin_lat + fmax_lat) / 2)
    (hfp1 : fmin_lon < fmax_lon) (hfp2 : fmin_lat < fmax_lat)
    (hsub1 : (decodeCharBits hv s).min_lon ≤ fmin_lon)
    (hsub2 : fmax_lon ≤ (decodeCharBits hv s).max_lon)
    (hsub3 : (decodeCharBits hv s).min_lat ≤ fmin_lat)
    (hsub4 : fmax_lat ≤ (decodeCharBits hv s).max_lat)
    (hp1 : s.min_lon < s.max_lon) (hp2 : s.min_lat < s.max_lat) :
    (encodeChar cF e).min_lon = (decodeCharBits hv s).min_lon ∧
    (encodeChar cF e).max_lon = (decodeCharBits hv s).max_lon ∧
    (encodeChar cF e).min_lat = (decodeCharBits hv s).min_lat ∧
    (encodeChar cF e).max_lat = (decodeCharBits hv s).max_lat ∧
    (encodeChar cF e).bits_total = e.bits_total + 4 ∧
    (encodeChar cF e).hash_value = e.hash_value * 16 + hv := by
  simp only [decodeCharBits] at hsub1 hsub2 hsub3 hsub4 ⊢
  simp only [encodeChar]
  obtain ⟨P1, Q1, A1, A2, A3, A4⟩ := decodeBit_shrink (hv / 8 % 2) s hp1 hp2
  obtain ⟨P2, Q2, B1, B2, B3, B4⟩ :=
    decodeBit_shrink (hv / 4 % 2) (decodeBit (hv / 8 % 2) s) P1 Q1
  obtain ⟨P3, Q3, C1, C2, C3, C4⟩ :=
    decodeBit_shrink (hv / 2 % 2)
      (decodeBit (hv / 4 % 2) (decodeBit (hv / 8 % 2) s)) P2 Q2
  obtain ⟨P4, Q4, D1, D2, D3, D4⟩ :=
    decodeBit_shrink (hv % 2)
      (decodeBit (hv / 2 % 2) (decodeBit (hv / 4 % 2) (decodeBit (hv / 8 % 2) s))) P3 Q3
  obtain ⟨u1, u2, u3, u4, u5, u6⟩ :=
    encodeBit_sim cF e s (hv / 8 % 2) (by omega) hq1 hq2 hq3 hq4 hpar
      fmin_lon fmax_lon fmin_lat fmax_lat hcx hcy hfp1 hfp2
      (le_trans B1 (le_trans C1 (le_trans D1 hsub1)))
      (le_trans hsub2 (le_trans D2 (le_trans C2 B2)))
      (le_trans B3 (le_trans C3 (le_trans D3 hsub3)))
      (le_trans hsub4 (le_trans D4 (le_trans C4 B4)))
  obtain ⟨v1, v2, v3, v4, v5, v6⟩ :=
    encodeBit_sim cF (encodeBit cF e) (decodeBit (hv / 8 % 2) s) (hv / 4 % 2)
      (by omega) u1 u2 u3 u4
      (by rw [decodeBit_is_lon, u5]; exact parity_flip hpar)
      fmin_lon fmax_lon fmin_lat fmax_lat hcx hcy hfp1 hfp2
      (le_trans C1 (le_trans D1 hsub1))
      (le_trans hsub2 (le_trans D2 C2))
      (le_trans C3 (le_trans D3 hsub3))
      (le_trans hsub4 (le_trans D4 C4))
  obtain ⟨w1, w2, w3, w4, w5, w6⟩ :=
    encodeBit_sim cF (encodeBit cF (encodeBit cF e))
      (decodeBit (hv / 4 % 2) (decodeBit (hv / 8 % 2) s)) (hv / 2 % 2)
      (by omega) v1 v2 v3 v4
      (by rw [decodeBit_is_lon, decodeBit_is_lon, v5, u5]
          exact parity_flip (parity_flip hpar))
      fmin_lon fmax_lon fmin_lat fmax_lat hcx hcy hfp1 hfp2
      (le_trans D1 hsub1) (le_trans hsub2 D2) (le_trans D3 hsub3) (le_trans hsub4 D4)
  obtain ⟨x1, x2, x3, x4, x5, x6⟩ :=
    encodeBit_sim cF (encodeBit cF (encodeBit cF (encodeBit cF e)))
      (decodeBit (hv / 2 % 2) (decodeBit (hv / 4 % 2) (decodeBit (hv / 8 % 2) s)))
      (hv % 2) (by omega) w1 w2 w3 w4
      (by rw [decodeBit_is_lon, decodeBit_is_lon, decodeBit_is_lon, w5, v5, u5]
          exact parity_flip (parity_flip (parity_flip hpar)))
      fmin_lon fmax_lon fmin_lat fmax_lat hcx hcy hfp1 hfp2
      hsub1 hsub2 hsub3 hsub4
  refine ⟨x1, x2, x3, x4, ?_, ?_⟩
  · rw [x5, w5, v5, u5]
  · rw [x6, w6, v6, u6]
    omega

lemma encodeLoop_sim :
    ∀ (cs : List Char) (s send : DecodeState) (e : EncodeState),
      decodeLoop cs s = .ok send →
      e.hash_value = 0 →
      e.min_lon = s.min_lon → e.max_lon = s.max_lon →
      e.min_lat = s.min_lat → e.max_lat = s.max_lat →
      (s.is_lon = true ↔ e.bits_total % 2 = 0) →
      s.min_lon < s.max_lon → s.min_lat < s.max_lat →
      (encodeLoop ⟨(send.min_lon + send.max_lon) / 2, (send.min_lat + send.max_lat) / 2⟩
        cs.length e).1 = cs := by
  intro cs
  induction cs with
  | nil => intro s send e _ _ _ _ _ _ _ _ _; rfl
  | cons ch cs ih =>
    intro s send e hdec hh hq1 hq2 hq3 hq4 hpar hp1 hp2
    rcases hv : hash_value_of_char ch with e0 | v
    · simp [decodeLoop, hv] at hdec
    · simp only [decodeLoop, hv] at hdec
      obtain ⟨cp1, cp2, _, _, _, _⟩ := decodeCharBits_shrink v s hp1 hp2
      obtain ⟨PP1, PP2, S1, S2, S3, S4⟩ :=
        decodeLoop_shrink cs (decodeCharBits v s) send cp1 cp2 hdec
      obtain ⟨E1, E2, E3, E4, EB, EH⟩ :=
        encodeChar_sim ⟨(send.min_lon + send.max_lon) / 2,
            (send.min_lat + send.max_lat) / 2⟩ e s v
          (hash_value_of_char_lt hv) hq1 hq2 hq3 hq4 hpar
          send.min_lon send.max_lon send.min_lat send.max_lat rfl rfl PP1 PP2
          S1 S2 S3 S4 hp1 hp2
      have hch : BASE32_CODES.getD
          (encodeChar ⟨(send.min_lon + send.max_lon) / 2,
            (send.min_lat + send.max_lat) / 2⟩ e).hash_value 'x' = ch := by
        rw [EH, hh]
        simpa using BASE32_getD_inv hv
      have hrec := ih (decodeCharBits v s) send
        { encodeChar ⟨(send.min_lon + send.max_lon) / 2,
            (send.min_lat + send.max_lat) / 2⟩ e with hash_value := 0 }
        hdec rfl (by simpa using E1) (by simpa using E2) (by simpa using E3)
        (by simpa using E4)
        (by rw [decodeCharBits_is_lon]
            show s.is_lon = true ↔ (encodeChar _ e).bits_total % 2 = 0
            rw [EB]
            exact parity_add_four hpar)
        cp1 cp2
      simp only [List.length_cons, encodeLoop]
      rw [hch, hrec]

/-- Claim C3, amended: decode-then-encode round-trips exactly for every
non-empty string of characters 0-9a-f of length at most 23 — the depth
through which every bound, centre and half-width the program computes is
exactly representable in binary64, so the rational model coincides with
the program value for value: encoding the centre coordinate of the
string's `decode_bbox` rectangle (the coordinate `decode` returns) at the
input string's length yields the identical string.  At greater depths the
program's f64 cells collapse below one ulp and the round trip fails (see
the counterexample at length 28), and from length 32 the i8 bit counter
overflows (see C9). -/
theorem c3_decode_encode_roundtrip (h : List Char) (hne : h ≠ [])
    (hvalid : ∀ ch ∈ h, ch ∈ BASE32_CODES) (hlen : h.length ≤ 23) :
    ∃ rect : Rect, decode_bbox h = .ok rect ∧
      encode ⟨(rect.min.x + rect.max.x) / 2, (rect.min.y + rect.max.y) / 2⟩ h.length
        = .ok h := by
  obtain ⟨s, hs⟩ := decodeLoop_ok_of_valid h decInit hvalid
  have hbbox := decode_bbox_ok_iff h s hs
  refine ⟨_, hbbox, ?_⟩
  obtain ⟨P1, P2, S1, S2, S3, S4⟩ :=
    decodeLoop_shrink h decInit s (by norm_num [decInit]) (by norm_num [decInit]) hs
  have t1 : (-180 : ℚ) ≤ s.min_lon := S1
  have t2 : s.max_lon ≤ (180 : ℚ) := S2
  have t3 : (-90 : ℚ) ≤ s.min_lat := S3
  have t4 : s.max_lat ≤ (90 : ℚ) := S4
  have hrange : ¬((s.min_lon + s.max_lon) / 2 < -180 ∨ (s.min_lon + s.max_lon) / 2 > 180 ∨
      (s.min_lat + s.max_lat) / 2 < -90 ∨ (s.min_lat + s.max_lat) / 2 > 90) := by
    push_neg
    refine ⟨by linarith, by linarith, by linarith, by linarith⟩
  show encode ⟨(s.min_lon + s.max_lon) / 2, (s.min_lat + s.max_lat) / 2⟩ h.length = .ok h
  rw [encode, if_neg hrange]
  exact congrArg Except.ok
    (encodeLoop_sim h decInit s encInit hs rfl rfl rfl rfl rfl
      (by simp [decInit, encInit]) (by norm_num [decInit]) (by norm_num [decInit]))

/-- Witness for C3 on the single-character string "e". -/
theorem c3_decode_encode_roundtrip_witness :
    ∃ rect : Rect, decode_bbox ['e'] = .ok rect ∧
      encode ⟨(rect.min.x + rect.max.x) / 2, (rect.min.y + rect.max.y) / 2⟩
        (['e'] : List Char).length = .ok ['e'] :=
  c3_decode_encode_roundtrip ['e'] (by simp) (by decide) (by decide)

end Geohash

namespace Geohash

/-- Witness for C8: the error-propagation implication instantiated on the
invalid string "w", whose decode failure surfaces through some direction. -/
theorem c8_neighbors_all_or_nothing_witness :
    ∃ d : Direction, neighbor ['w'] d = .error (.InvalidHashCharacter 'w') :=
  c8_neighbors_all_or_nothing.2 ['w'] (.InvalidHashCharacter 'w')
    (by simp [neighbors, neighbor, decode, decode_bbox, decodeLoop, hv_char_w])

end Geohash

namespace Geohash

/-- Claim C3, counterexample: under the program's actual binary64
arithmetic the round trip fails at the valid 28-character input of all f
(28 is below the i8-overflow threshold of 32, so the failure is purely
rounding): the bisection collapses to a degenerate cell whose centre is
exactly (180, 90) (the value 6333186975989760·2^-45 = 180) with zero
half-widths, and re-encoding that centre at length 28 returns twenty-seven
f followed by 0 — not the identical input string. -/
theorem c3_counterexample_f64_roundtrip :
    List.replicate 28 'f' ≠ ([] : List Char) ∧
    (∀ ch ∈ List.replicate 28 'f', ch ∈ BASE32_CODES) ∧
    decodeF (List.replicate 28 'f') =
      .ok (⟨⟨6333186975989760, -45⟩, ⟨6333186975989760, -46⟩⟩, ⟨0, 0⟩, ⟨0, 0⟩) ∧
    roundtripF (List.replicate 28 'f') = some (List.replicate 27 'f' ++ ['0']) ∧
    List.replicate 27 'f' ++ ['0'] ≠ List.replicate 28 'f' := by
  decide

/-- Claim C7, counterexample: under the program's actual binary64
arithmetic, the in-range coordinate (180, 90) encoded at len = 27 and at
len = 28 decodes to identical errors lon_err = 2^-46 and lat_err = 2^-47
(the cell is frozen at one ulp), so the errors do not strictly decrease
from len = 27 to len = 28. -/
theorem c7_counterexample_f64_plateau :
    encodeF ⟨⟨180, 0⟩, ⟨90, 0⟩⟩ 27 = .ok (List.replicate 27 'f') ∧
    encodeF ⟨⟨180, 0⟩, ⟨90, 0⟩⟩ 28 = .ok (List.replicate 27 'f' ++ ['0']) ∧
    decodeF (List.replicate 27 'f') =
      .ok (⟨⟨6333186975989760, -45⟩, ⟨6333186975989760, -46⟩⟩, ⟨1, -46⟩, ⟨1, -47⟩) ∧
    decodeF (List.replicate 27 'f' ++ ['0']) =
      .ok (⟨⟨6333186975989760, -45⟩, ⟨6333186975989760, -46⟩⟩, ⟨1, -46⟩, ⟨1, -47⟩) ∧
    fltF ⟨1, -46⟩ ⟨1, -46⟩ = false ∧ fltF ⟨1, -47⟩ ⟨1, -47⟩ = false := by
  decide

end Geohash
